import Mathlib

/-! Verification of the market-research agent's report-extraction logic
(`market_research/agent.py`) and of the web session layer
(`market_research/web.py`). Python strings are modelled as lists of
characters; the regular-expression searches of the source are translated
into executable character-list scanners with the same semantics
(multiline anchoring at the string start and after each newline, `.`
never matching a newline, case-insensitive keyword alternation). -/

/-- Character-list model of a Python string. -/
abbrev Str := List Char

/-- Whitespace test matching Python's `str.strip` default set. -/
def isSpace (c : Char) : Bool :=
  c == ' ' || c == '\t' || c == '\n' || c == '\r' || c == '\x0b' || c == '\x0c'

/-- True when every character of the string is whitespace; the empty string counts. -/
def allWhite (s : Str) : Bool := s.all isSpace

/-- Model of Python's `str.strip()`: drop whitespace from both ends. -/
def trim (s : Str) : Str :=
  ((s.dropWhile isSpace).reverse.dropWhile isSpace).reverse

/-- Blank-line separator used by `"\n\n".join(...)` in the source. -/
def blankSep : Str := ['\n', '\n']

/-- Model of Python's `sep.join(parts)`. -/
def joinSep (sep : Str) : List Str → Str
  | [] => []
  | [x] => x
  | x :: y :: rest => x ++ sep ++ joinSep sep (y :: rest)

/-- Model of Python's `l[-n:]` for `n ≥ 1`: the last `n` elements. -/
def lastN (n : Nat) (l : List Str) : List Str := l.drop (l.length - n)

/-- First-success choice between two optional extraction results. -/
def orS (a b : Option Str) : Option Str :=
  match a with
  | some x => some x
  | none => b

/-- Case-insensitive character comparison, modelling `re.IGNORECASE`. -/
def ciEq (a b : Char) : Bool := a.toLower == b.toLower

/-- Case-insensitive test that the pattern `kw` matches at the head of the text. -/
def ciLeads : Str → Str → Bool
  | [], _ => true
  | _ :: _, [] => false
  | k :: ks, c :: cs => ciEq k c && ciLeads ks cs

/-- Exact (case-sensitive) test that the pattern (first argument) matches at
the head of the text (second argument). -/
def leadsWith : Str → Str → Bool
  | [], _ => true
  | _ :: _, [] => false
  | k :: ks, c :: cs => c == k && leadsWith ks cs

def kwMarket : Str := "Market".data

def kwResearch : Str := "Research".data

def kwBrief : Str := "Brief".data

def kwReport : Str := "Report".data

def kwAnalysis : Str := "Analysis".data

def kwOverview : Str := "Overview".data

def kwExecutive : Str := "Executive".data

/-- Alternation `(?:Market|Research|Brief|Report|Analysis|Overview|Executive)`
matching (case-insensitively) at the head of the text. -/
def keywordAt (s : Str) : Bool :=
  ciLeads kwMarket s || ciLeads kwResearch s || ciLeads kwBrief s ||
  ciLeads kwReport s || ciLeads kwAnalysis s || ciLeads kwOverview s ||
  ciLeads kwExecutive s

/-- Scan for a keyword starting at the current position or later on the same
line: `.+` may consume further non-newline characters before the keyword. -/
def keywordSearch : Str → Bool
  | [] => false
  | c :: rest => keywordAt (c :: rest) || (c != '\n' && keywordSearch rest)

/-- Tail of the pattern `.+(?:Market|...)`: at least one non-newline character,
then a keyword after zero or more further non-newline characters. -/
def keywordAfterGap : Str → Bool
  | [] => false
  | c :: rest => c != '\n' && keywordSearch rest

/-- Tail of the pattern `.+`: at least one non-newline character remains. -/
def matchDotPlus : Str → Bool
  | [] => false
  | c :: _ => c != '\n'

/-- Tail of the pattern `# .+` after the `#`: a space, then `.+`. -/
def matchH1Rest : Str → Bool
  | [] => false
  | c :: rest => c == ' ' && matchDotPlus rest

/-- Pattern `# .+` matching at the current (line-start) position. -/
def matchH1At : Str → Bool
  | [] => false
  | c :: rest => c == '#' && matchH1Rest rest

/-- Tail of the pattern `## .+` after the first `#`. -/
def matchH2Rest : Str → Bool
  | [] => false
  | c :: rest => c == '#' && matchH1Rest rest

/-- Pattern `## .+` matching at the current (line-start) position. -/
def matchH2At : Str → Bool
  | [] => false
  | c :: rest => c == '#' && matchH2Rest rest

/-- Tail of the titled-heading pattern `# .+(?:Market|...)` after the `#`. -/
def matchTitledRest : Str → Bool
  | [] => false
  | c :: rest => c == ' ' && keywordAfterGap rest

/-- Titled-heading pattern `# .+(?:Market|...)` matching at the current
(line-start) position. -/
def matchTitledAt : Str → Bool
  | [] => false
  | c :: rest => c == '#' && matchTitledRest rest

/-- Continuation of a multiline `re.search`: try `p` at the position
immediately after each newline. -/
def searchCont (p : Str → Bool) : Str → Bool
  | [] => false
  | c :: rest => (c == '\n' && p rest) || searchCont p rest

/-- Model of `re.search` with `re.MULTILINE` for a `^`-anchored pattern:
try the pattern at the start of the string and after every newline. -/
def multilineSearch (p : Str → Bool) (s : Str) : Bool := p s || searchCont p s

/-- Model of `_is_report_text` in `agent.py`: a `^# .+` line, a `^## .+`
line, and length strictly above `min_length`. -/
def _is_report_text (text : Str) (min_length : Nat) : Bool :=
  multilineSearch matchH1At text && multilineSearch matchH2At text &&
  decide (min_length < text.length)

/-- Model of `_has_report_heading` in `agent.py`: multiline search for
`^# .+(?:Market|Research|Brief|Report|Analysis|Overview|Executive)`,
case-insensitive. -/
def _has_report_heading (text : Str) : Bool :=
  multilineSearch matchTitledAt text

/-- Continuation of the suffix-returning multiline search: after each
newline, if the pattern matches there, return the text from that position. -/
def searchSuffixCont (p : Str → Bool) : Str → Option Str
  | [] => none
  | c :: rest =>
    if c == '\n' && p rest then some rest else searchSuffixCont p rest

/-- Model of `re.search(...).start()` followed by slicing `full_text[match.start():]`
for a `^`-anchored multiline pattern: the suffix of the text from the first
line start at which the pattern matches. -/
def searchSuffix (p : Str → Bool) (s : Str) : Option Str :=
  if p s then some s else searchSuffixCont p s

/-- Strategy 1 of `_extract_report`: the terminal result itself is a report. -/
def strat1 (result_text : Str) : Option Str :=
  if !result_text.isEmpty && _is_report_text result_text 1000 then
    some (trim result_text)
  else none

/-- Scan a list of candidate texts, returning the first report found, trimmed. -/
def findReport (min_length : Nat) : List Str → Option Str
  | [] => none
  | m :: rest =>
    if _is_report_text m min_length then some (trim m) else findReport min_length rest

/-- Strategy 2 of `_extract_report`: scan per-message texts from the end. -/
def strat2 (message_texts : List Str) (min_length : Nat) : Option Str :=
  findReport min_length message_texts.reverse

/-- Blank-line join of the last `n` messages, `"\n\n".join(message_texts[-n:])`. -/
def windowJoin (message_texts : List Str) (n : Nat) : Str :=
  joinSep blankSep (lastN n message_texts)

/-- Loop body of strategy 3/6b: try each window size in order. -/
def strat3go (message_texts : List Str) (min_length : Nat) : List Nat → Option Str
  | [] => none
  | n :: rest =>
    if _is_report_text (windowJoin message_texts n) min_length then
      some (trim (windowJoin message_texts n))
    else strat3go message_texts min_length rest

/-- Strategy 3 of `_extract_report`: windows of the last `n` messages for
`n` in `range(2, min(8, len(message_texts) + 1))`. -/
def strat3 (message_texts : List Str) (min_length : Nat) : Option Str :=
  strat3go message_texts min_length (List.range' 2 (min 8 (message_texts.length + 1) - 2))

/-- Concatenation of all message texts, with the terminal result appended
when it is non-empty, as built at the start of strategy 4. -/
def mkFullText (result_text : Str) (message_texts : List Str) : Str :=
  joinSep blankSep message_texts ++
    (if result_text.isEmpty then [] else blankSep ++ result_text)

/-- Strategy 4 of `_extract_report`: cut the concatenated text at the first
titled heading (falling back to any `# ` heading) and keep the suffix when
its trimmed length exceeds 300. -/
def strat4 (full_text : Str) : Option Str :=
  match orS (searchSuffix matchTitledAt full_text) (searchSuffix matchH1At full_text) with
  | none => none
  | some suffix => if 300 < (trim suffix).length then some (trim suffix) else none

/-- Loop body of strategy 5: last `n` messages with the result appended. -/
def strat5go (message_texts : List Str) (result_text : Str) : List Nat → Option Str
  | [] => none
  | n :: rest =>
    if _is_report_text (windowJoin message_texts n ++ blankSep ++ result_text) 500 then
      some (trim (windowJoin message_texts n ++ blankSep ++ result_text))
    else strat5go message_texts result_text rest

/-- Strategy 5 of `_extract_report`: when the result exceeds 200 characters,
try the last `n` messages plus the result for `n` in
`range(1, min(5, len(message_texts) + 1))` at threshold 500. -/
def strat5 (result_text : Str) (message_texts : List Str) : Option Str :=
  if 200 < result_text.length then
    strat5go message_texts result_text (List.range' 1 (min 5 (message_texts.length + 1) - 1))
  else none

/-- Strategy 7 of `_extract_report`: the full concatenation if it trims to
something non-empty, otherwise the raw terminal result. -/
def strat7 (full_text result_text : Str) : Str :=
  if (trim full_text).isEmpty then result_text else trim full_text

/-- Strategies 1 through 6 of `_extract_report` in source order, first
success winning. -/
def extractCascade (result_text : Str) (message_texts : List Str) : Option Str :=
  orS (strat1 result_text)
    (orS (strat2 message_texts 1000)
    (orS (strat3 message_texts 1000)
    (orS (strat4 (mkFullText result_text message_texts))
    (orS (strat5 result_text message_texts)
    (orS (strat2 message_texts 500) (strat3 message_texts 500))))))

/-- Model of `_extract_report` in `agent.py`: the seven-stage cascade. -/
def _extract_report (result_text : Str) (message_texts : List Str) : Str :=
  match extractCascade result_text message_texts with
  | some s => s
  | none => strat7 (mkFullText result_text message_texts) result_text

/-- Split a string at newlines, as Python's `text.split("\n")`: the empty
string yields one empty line, and a trailing newline yields a final empty
line. The line starts are exactly the positions at which a `^`-anchored
multiline pattern may match. -/
def splitLines : Str → List Str
  | [] => [[]]
  | c :: rest =>
    if c == '\n' then [] :: splitLines rest
    else
      match splitLines rest with
      | [] => [[c]]
      | l :: ls => (c :: l) :: ls

/-- Case-insensitive substring test: `kw` matches at some position of `s`. -/
def ciSub (kw : Str) : Str → Bool
  | [] => ciLeads kw []
  | c :: rest => ciLeads kw (c :: rest) || ciSub kw rest

/-- Case-insensitive search for any of the seven report keywords inside `s`. -/
def anyKeywordSub (s : Str) : Bool :=
  ciSub kwMarket s || ciSub kwResearch s || ciSub kwBrief s || ciSub kwReport s ||
  ciSub kwAnalysis s || ciSub kwOverview s || ciSub kwExecutive s

/-- Modelled from the spec: the claimed reading of `hasTitledHeading` — some
line starts with `# ` and the text after the marker contains a keyword,
case-insensitively, at any position including immediately after the marker. -/
def hasTitledHeadingSpec (text : Str) : Bool :=
  (splitLines text).any fun l => leadsWith "# ".data l && anyKeywordSub (l.drop 2)

/-- Amended reading of `hasTitledHeading`, matching the source regex: some
line starts with `# ` and a keyword occurs, case-insensitively, at least one
character after the marker (at line index 3 or later). -/
def hasTitledHeadingAmended (text : Str) : Bool :=
  (splitLines text).any fun l => leadsWith "# ".data l && anyKeywordSub (l.drop 3)

/-- Content block of an assistant message: a text block or a named tool use,
as distinguished by `run_research_agent`. -/
inductive ContentBlock where
  | textBlock (text : Str)
  | toolUse (name : Str)
deriving DecidableEq

/-- Message from the agent runtime, as classified by the consumption loop of
`run_research_agent`: an assistant message with content blocks, a result
message whose `result` attribute may be absent or empty (modelled as an
optional string), or any other message, which the loop ignores. -/
inductive AgentMessage where
  | assistant (content : List ContentBlock)
  | resultMsg (result : Option Str)
  | otherMsg
deriving DecidableEq

/-- Accumulator state of the message-consumption loop in `run_research_agent`. -/
structure RunState where
  message_texts : List Str
  result_text : Str
  search_count : Nat
  fetch_count : Nat
deriving DecidableEq

/-- Texts of the text blocks of one assistant message, in order. -/
def textParts (blocks : List ContentBlock) : List Str :=
  blocks.filterMap fun b =>
    match b with
    | .textBlock t => some t
    | _ => none

/-- Number of tool-use blocks with the given tool name. -/
def toolCount (name : Str) (blocks : List ContentBlock) : Nat :=
  (blocks.filter fun b =>
    match b with
    | .toolUse n => n == name
    | _ => false).length

/-- One iteration of the message loop of `run_research_agent`: an assistant
message contributes its newline-joined text parts (when any) and its tool
counts; a result message overwrites `result_text` only when its result is
present and non-empty; other messages are ignored. -/
def stepMessage (st : RunState) (m : AgentMessage) : RunState :=
  match m with
  | .assistant blocks =>
    let st' : RunState :=
      { st with
        search_count := st.search_count + toolCount "WebSearch".data blocks
        fetch_count := st.fetch_count + toolCount "WebFetch".data blocks }
    if (textParts blocks).isEmpty then st'
    else { st' with message_texts := st'.message_texts ++ [joinSep ['\n'] (textParts blocks)] }
  | .resultMsg r =>
    match r with
    | some t => if t.isEmpty then st else { st with result_text := t }
    | none => st
  | .otherMsg => st

/-- Initial accumulator of the message loop: no messages, empty result, zero counts. -/
def initialRunState : RunState := ⟨[], [], 0, 0⟩

/-- Model of the full message-consumption loop of `run_research_agent`. -/
def runLoop (st : RunState) : List AgentMessage → RunState
  | [] => st
  | m :: rest => runLoop (stepMessage st m) rest

/-- Values of the result messages whose result is present and non-empty, in
stream order: exactly the values that the loop lets overwrite `result_text`. -/
def truthyResults (msgs : List AgentMessage) : List Str :=
  msgs.filterMap fun m =>
    match m with
    | .resultMsg (some r) => if r.isEmpty then none else some r
    | _ => none

/-- Values carried by the result messages in stream order, empty values
included, as the claim's "terminal-result values". -/
def statedResultValues (msgs : List AgentMessage) : List Str :=
  msgs.filterMap fun m =>
    match m with
    | .resultMsg (some r) => some r
    | _ => none

/-- Model of the turn-count clamp in `stream_research`:
`max_turns = max(10, min(100, max_turns))`. -/
def clamp_max_turns (t : Int) : Int := max 10 (min 100 t)

/-- Handle of a background research task, exposing only whether it has
reached a terminal state, as `asyncio.Task.done()`. -/
structure TaskHandle where
  done : Bool
deriving DecidableEq

/-- Model of the `_active_sessions` module dictionary: a map from session id
to the registered task handle. -/
abbrev SessionRegistry := Str → Option TaskHandle

/-- Status string of the JSON response of `cancel_research`. -/
inductive CancelStatus where
  | cancelled
  | not_found
deriving DecidableEq

/-- Result of one call to the cancel endpoint: the updated registry, whether
`task.cancel()` was invoked, and the reported status. -/
structure CancelOutcome where
  registry : SessionRegistry
  cancel_called : Bool
  status : CancelStatus

/-- Removal of a session id from the registry, as `dict.pop(session_id, None)`. -/
def removeSession (reg : SessionRegistry) (sid : Str) : SessionRegistry :=
  fun k => if k = sid then none else reg k

/-- Model of the `cancel_research` endpoint of `web.py`: pop the session id;
if a task was registered and is not done, cancel it and report `cancelled`,
otherwise report `not_found`. -/
def cancel_research (reg : SessionRegistry) (sid : Str) : CancelOutcome :=
  match reg sid with
  | none => ⟨reg, false, .not_found⟩
  | some task =>
    if !task.done then ⟨removeSession reg sid, true, .cancelled⟩
    else ⟨removeSession reg sid, false, .not_found⟩

/-- Named server-sent event of the streaming wire contract, with its payload
fields; the page count is `none` when page counting failed (the `"~"` value). -/
inductive SseEvent where
  | session (session_id : Str)
  | status (message : Str)
  | log (message : Str) (ty : Str)
  | heartbeat (elapsed : Nat)
  | complete (filename : Str) (pages : Option Nat)
  | cancelled (message : Str)
  | error_event (message : Str)
deriving DecidableEq

/-- Terminal events of the wire contract: `complete`, `cancelled`, `error_event`. -/
def isTerminalEvent : SseEvent → Bool
  | .complete _ _ => true
  | .cancelled _ => true
  | .error_event _ => true
  | _ => false

/-- Outcome of the background agent task as observed by `event_stream` after
its drain loop: the task reports itself cancelled, `result()` raises a
cancellation, `result()` raises another exception, or the run returns a report. -/
inductive AgentOutcome where
  | wasCancelled
  | raisedCancelled
  | raised (message : Str)
  | returned (report : Str)

/-- Outcome of the PDF-rendering collaborator on a given report. -/
inductive RenderResult where
  | rendered (filename : Str) (pages : Option Nat)
  | renderError (message : Str)

/-- One observed iteration of the drain loop of `event_stream`: a queue item
arrived within the timeout, the heartbeat interval elapsed, or an idle
timeout with no heartbeat due. -/
inductive DrainStep where
  | queueItem (message : Str) (ty : Str)
  | heartbeatTick (elapsed : Nat)
  | idle

/-- Events emitted by the drain loop: each queue item yields a `log` and a
`status` event, each due heartbeat yields a `heartbeat` event. -/
def drainEvents : List DrainStep → List SseEvent
  | [] => []
  | .queueItem m t :: rest => .log m t :: .status m :: drainEvents rest
  | .heartbeatTick e :: rest => .heartbeat e :: drainEvents rest
  | .idle :: rest => drainEvents rest

/-- Events flushing the residual queue after the agent task finished: one
`log` event per remaining item. -/
def residualEvents (residual : List (Str × Str)) : List SseEvent :=
  residual.map fun r => .log r.1 r.2

/-- Message of the `cancelled` terminal event. -/
def stoppedMessage : Str := "Research stopped by user.".data

/-- Events emitted by `event_stream` after the drain phase, translated
branch by branch from `web.py`: a cancelled task or a cancellation raised by
`result()` yields the `cancelled` event; any other exception yields
`error_event`; a returned report yields the PDF phase messages and then
either `error_event` (render failure, markdown saved) or the saved-report
`log` plus `complete`. -/
def tailEvents (outcome : AgentOutcome) (render : Str → RenderResult) : List SseEvent :=
  match outcome with
  | .wasCancelled => [.cancelled stoppedMessage]
  | .raisedCancelled => [.cancelled stoppedMessage]
  | .raised m => [.error_event m]
  | .returned report =>
    [.log "Converting to PDF...".data "phase".data,
     .status "Generating PDF report...".data] ++
    (match render report with
     | .renderError m =>
       [.error_event ("PDF generation failed: ".data ++ m ++ ". Markdown saved.".data)]
     | .rendered fn pages =>
       [.log ("Report saved: ".data ++ fn) "done".data, .complete fn pages])

/-- Events emitted by `event_stream` before the agent task is started: the
session id, the initial status, the parameter logs, and the instructions log
when a prompt was given. -/
def initialEvents (topic prompt sid : Str) (max_turns : Nat) : List SseEvent :=
  [.session sid,
   .status ("Researching: ".data ++ topic),
   .log ("Topic: ".data ++ topic) "phase".data,
   .log ("Max turns: ".data ++ (toString max_turns).data) "phase".data] ++
  (if prompt.isEmpty then [] else [.log ("Instructions: ".data ++ prompt) "phase".data])

/-- Model of the complete event sequence yielded by one `event_stream`
generator run, indexed by the observed drain-loop schedule, the residual
queue contents, the agent outcome, and the renderer behaviour. -/
def event_stream_events (topic prompt sid : Str) (max_turns : Nat)
    (steps : List DrainStep) (residual : List (Str × Str))
    (outcome : AgentOutcome) (render : Str → RenderResult) : List SseEvent :=
  initialEvents topic prompt sid max_turns ++ drainEvents steps ++
  residualEvents residual ++ tailEvents outcome render

/-- Concrete report-shaped text used by witnesses: a titled H1 heading, an
H2 heading and 1100 characters of body. -/
def sampleReport : Str := "# Global Market Report\n## Overview\n".data ++ List.replicate 1100 'x'

/-- Concrete message fragment for the strategy-3 witness: the heading-only
antepenultimate message. -/
def fragHeading : Str := "# Quarterly Findings\n".data

/-- Concrete message fragment for the strategy-3 witness: first body half. -/
def fragPartOne : Str := "## Part One\n".data ++ List.replicate 520 'b'

/-- Concrete message fragment for the strategy-3 witness: second body half. -/
def fragPartTwo : Str := "## Part Two\n".data ++ List.replicate 520 'c'

/-- Concrete session registry used by the cancellation witness: one active
(not done) task registered under one id. -/
def sampleRegistry : SessionRegistry :=
  fun k => if k = "abc12345".data then some ⟨false⟩ else none

/-! Lemmas about whitespace, trimming and the report matchers. -/

theorem allWhite_append (a b : Str) : allWhite (a ++ b) = (allWhite a && allWhite b) := by
  simp [allWhite, List.all_append]

theorem allWhite_blankSep : allWhite blankSep = true := by decide

theorem joinSep_blank_allWhite (ms : List Str) :
    allWhite (joinSep blankSep ms) = ms.all allWhite := by
  induction ms with
  | nil => rfl
  | cons x rest ih =>
    cases rest with
    | nil => simp [joinSep, allWhite]
    | cons y t =>
      rw [joinSep, allWhite_append, allWhite_append, ih]
      simp [allWhite_blankSep]

theorem trim_eq_nil_iff (s : Str) : trim s = [] ↔ allWhite s = true := by
  unfold trim
  rw [List.reverse_eq_nil_iff, List.dropWhile_eq_nil_iff]
  constructor
  · intro h
    have hdrop : ∀ x ∈ s.dropWhile isSpace, isSpace x = true := by
      intro x hx
      exact h x (List.mem_reverse.mpr hx)
    rw [allWhite, List.all_eq_true]
    intro x hx
    rw [← List.takeWhile_append_dropWhile isSpace s] at hx
    rcases List.mem_append.mp hx with h1 | h2
    · exact List.mem_takeWhile_imp h1
    · exact hdrop x h2
  · intro h x hx
    have hx' : x ∈ s.dropWhile isSpace := List.mem_reverse.mp hx
    have hxs : x ∈ s := (List.dropWhile_sublist isSpace (l := s)).subset hx'
    exact List.all_eq_true.mp h x hxs

theorem beq_hash_false_of_space (c : Char) (hc : isSpace c = true) : (c == '#') = false := by
  cases h : c == '#' with
  | false => rfl
  | true =>
    have he : c = '#' := beq_iff_eq.mp h
    rw [he] at hc
    exact absurd hc (by decide)

theorem allWhite_cons (c : Char) (rest : Str) (h : allWhite (c :: rest) = true) :
    isSpace c = true ∧ allWhite rest = true := by
  simpa [allWhite, Bool.and_eq_true] using h

theorem matchH1At_false_of_white (s : Str) (h : allWhite s = true) : matchH1At s = false := by
  cases s with
  | nil => rfl
  | cons c rest =>
    obtain ⟨hc, _⟩ := allWhite_cons c rest h
    simp [matchH1At, beq_hash_false_of_space c hc]

theorem matchH2At_false_of_white (s : Str) (h : allWhite s = true) : matchH2At s = false := by
  cases s with
  | nil => rfl
  | cons c rest =>
    obtain ⟨hc, _⟩ := allWhite_cons c rest h
    simp [matchH2At, beq_hash_false_of_space c hc]

theorem matchTitledAt_false_of_white (s : Str) (h : allWhite s = true) :
    matchTitledAt s = false := by
  cases s with
  | nil => rfl
  | cons c rest =>
    obtain ⟨hc, _⟩ := allWhite_cons c rest h
    simp [matchTitledAt, beq_hash_false_of_space c hc]

theorem searchCont_false_of_white (p : Str → Bool)
    (hp : ∀ t, allWhite t = true → p t = false) :
    ∀ s, allWhite s = true → searchCont p s = false := by
  intro s
  induction s with
  | nil => intro _; rfl
  | cons c rest ih =>
    intro h
    obtain ⟨_, hrest⟩ := allWhite_cons c rest h
    simp [searchCont, hp rest hrest, ih hrest]

theorem multilineSearch_false_of_white (p : Str → Bool)
    (hp : ∀ t, allWhite t = true → p t = false)
    (s : Str) (h : allWhite s = true) : multilineSearch p s = false := by
  simp [multilineSearch, hp s h, searchCont_false_of_white p hp s h]

theorem is_report_text_false_of_white (s : Str) (n : Nat) (h : allWhite s = true) :
    _is_report_text s n = false := by
  simp [_is_report_text,
    multilineSearch_false_of_white matchH1At matchH1At_false_of_white s h]

theorem allWhite_false_of_report (s : Str) (n : Nat) (h : _is_report_text s n = true) :
    allWhite s = false := by
  cases hw : allWhite s with
  | false => rfl
  | true =>
    rw [is_report_text_false_of_white s n hw] at h
    exact absurd h (by simp)

theorem trim_ne_nil_of_report (s : Str) (n : Nat) (h : _is_report_text s n = true) :
    trim s ≠ [] := by
  intro hnil
  have hw := (trim_eq_nil_iff s).mp hnil
  rw [allWhite_false_of_report s n h] at hw
  exact absurd hw (by simp)

theorem searchSuffixCont_none_of_white (p : Str → Bool)
    (hp : ∀ t, allWhite t = true → p t = false) :
    ∀ s, allWhite s = true → searchSuffixCont p s = none := by
  intro s
  induction s with
  | nil => intro _; rfl
  | cons c rest ih =>
    intro h
    obtain ⟨_, hrest⟩ := allWhite_cons c rest h
    simp [searchSuffixCont, hp rest hrest, ih hrest]

theorem searchSuffix_none_of_white (p : Str → Bool)
    (hp : ∀ t, allWhite t = true → p t = false)
    (s : Str) (h : allWhite s = true) : searchSuffix p s = none := by
  simp [searchSuffix, hp s h, searchSuffixCont_none_of_white p hp s h]

/-! Lemmas about the individual extraction strategies. -/

theorem orS_eq_some (a b : Option Str) (x : Str) (h : orS a b = some x) :
    a = some x ∨ (a = none ∧ b = some x) := by
  cases a with
  | some y => left; simpa [orS] using h
  | none => right; exact ⟨rfl, by simpa [orS] using h⟩

theorem strat1_some_ne_nil (r : Str) (x : Str) (h : strat1 r = some x) : x ≠ [] := by
  unfold strat1 at h
  by_cases hc : (!r.isEmpty && _is_report_text r 1000) = true
  · rw [if_pos hc] at h
    obtain ⟨_, hrep⟩ := Bool.and_eq_true_iff.mp hc
    have hx : trim r = x := Option.some.inj h
    rw [← hx]
    exact trim_ne_nil_of_report r 1000 hrep
  · rw [if_neg hc] at h
    exact absurd h (by simp)

theorem findReport_some_ne_nil (n : Nat) :
    ∀ (l : List Str) (x : Str), findReport n l = some x → x ≠ [] := by
  intro l
  induction l with
  | nil => intro x h; exact absurd h (by simp [findReport])
  | cons m rest ih =>
    intro x h
    unfold findReport at h
    by_cases hc : _is_report_text m n = true
    · rw [if_pos hc] at h
      have hx : trim m = x := Option.some.inj h
      rw [← hx]
      exact trim_ne_nil_of_report m n hc
    · rw [if_neg hc] at h
      exact ih x h

theorem strat2_some_ne_nil (ms : List Str) (n : Nat) (x : Str)
    (h : strat2 ms n = some x) : x ≠ [] :=
  findReport_some_ne_nil n ms.reverse x h

theorem strat3go_some_ne_nil (ms : List Str) (n : Nat) :
    ∀ (l : List Nat) (x : Str), strat3go ms n l = some x → x ≠ [] := by
  intro l
  induction l with
  | nil => intro x h; exact absurd h (by simp [strat3go])
  | cons k rest ih =>
    intro x h
    unfold strat3go at h
    by_cases hc : _is_report_text (windowJoin ms k) n = true
    · rw [if_pos hc] at h
      have hx : trim (windowJoin ms k) = x := Option.some.inj h
      rw [← hx]
      exact trim_ne_nil_of_report (windowJoin ms k) n hc
    · rw [if_neg hc] at h
      exact ih x h

theorem strat3_some_ne_nil (ms : List Str) (n : Nat) (x : Str)
    (h : strat3 ms n = some x) : x ≠ [] :=
  strat3go_some_ne_nil ms n _ x h

theorem strat4_some_ne_nil (f : Str) (x : Str) (h : strat4 f = some x) : x ≠ [] := by
  unfold strat4 at h
  split at h
  · exact absurd h (by simp)
  · split at h
    · have hx : trim _ = x := Option.some.inj h
      rw [← hx]
      intro hnil
      simp_all
    · exact absurd h (by simp)

theorem strat5go_some_ne_nil (ms : List Str) (r : Str) :
    ∀ (l : List Nat) (x : Str), strat5go ms r l = some x → x ≠ [] := by
  intro l
  induction l with
  | nil => intro x h; exact absurd h (by simp [strat5go])
  | cons k rest ih =>
    intro x h
    unfold strat5go at h
    by_cases hc : _is_report_text (windowJoin ms k ++ blankSep ++ r) 500 = true
    · rw [if_pos hc] at h
      have hx : trim (windowJoin ms k ++ blankSep ++ r) = x := Option.some.inj h
      rw [← hx]
      exact trim_ne_nil_of_report (windowJoin ms k ++ blankSep ++ r) 500 hc
    · rw [if_neg hc] at h
      exact ih x h

theorem strat5_some_ne_nil (r : Str) (ms : List Str) (x : Str)
    (h : strat5 r ms = some x) : x ≠ [] := by
  unfold strat5 at h
  by_cases hc : 200 < r.length
  · rw [if_pos hc] at h
    exact strat5go_some_ne_nil ms r _ x h
  · rw [if_neg hc] at h
    exact absurd h (by simp)

theorem extractCascade_some_ne_nil (r : Str) (ms : List Str) (x : Str)
    (h : extractCascade r ms = some x) : x ≠ [] := by
  unfold extractCascade at h
  rcases orS_eq_some _ _ _ h with h1 | ⟨_, h⟩
  · exact strat1_some_ne_nil r x h1
  rcases orS_eq_some _ _ _ h with h2 | ⟨_, h⟩
  · exact strat2_some_ne_nil ms 1000 x h2
  rcases orS_eq_some _ _ _ h with h3 | ⟨_, h⟩
  · exact strat3_some_ne_nil ms 1000 x h3
  rcases orS_eq_some _ _ _ h with h4 | ⟨_, h⟩
  · exact strat4_some_ne_nil _ x h4
  rcases orS_eq_some _ _ _ h with h5 | ⟨_, h⟩
  · exact strat5_some_ne_nil r ms x h5
  rcases orS_eq_some _ _ _ h with h6 | ⟨_, h7⟩
  · exact strat2_some_ne_nil ms 500 x h6
  · exact strat3_some_ne_nil ms 500 x h7

theorem findReport_eq_none (n : Nat) :
    ∀ (l : List Str), (∀ m ∈ l, _is_report_text m n = false) → findReport n l = none := by
  intro l
  induction l with
  | nil => intro _; rfl
  | cons m rest ih =>
    intro h
    unfold findReport
    rw [if_neg (by rw [h m (List.mem_cons_self m rest)]; simp)]
    exact ih fun x hx => h x (List.mem_cons_of_mem m hx)

theorem strat3go_eq_none (ms : List Str) (n : Nat)
    (h : ∀ k, _is_report_text (windowJoin ms k) n = false) :
    ∀ (l : List Nat), strat3go ms n l = none := by
  intro l
  induction l with
  | nil => rfl
  | cons k rest ih =>
    unfold strat3go
    rw [if_neg (by rw [h k]; simp)]
    exact ih

theorem mkFullText_nil_left (ms : List Str) : mkFullText [] ms = joinSep blankSep ms := by
  simp [mkFullText]

theorem windowJoin_white (ms : List Str) (h : ∀ m ∈ ms, allWhite m = true) (k : Nat) :
    allWhite (windowJoin ms k) = true := by
  rw [windowJoin, joinSep_blank_allWhite, List.all_eq_true]
  intro m hm
  exact h m (List.drop_subset _ ms hm)

theorem strat1_nil : strat1 [] = none := by
  simp [strat1]

theorem strat2_none_of_white (ms : List Str) (n : Nat)
    (h : ∀ m ∈ ms, allWhite m = true) : strat2 ms n = none := by
  apply findReport_eq_none
  intro m hm
  exact is_report_text_false_of_white m n (h m (List.mem_reverse.mp hm))

theorem strat3_none_of_white (ms : List Str) (n : Nat)
    (h : ∀ m ∈ ms, allWhite m = true) : strat3 ms n = none := by
  apply strat3go_eq_none
  intro k
  exact is_report_text_false_of_white _ n (windowJoin_white ms h k)

theorem strat4_none_of_white (f : Str) (h : allWhite f = true) : strat4 f = none := by
  unfold strat4
  rw [searchSuffix_none_of_white matchTitledAt matchTitledAt_false_of_white f h,
      searchSuffix_none_of_white matchH1At matchH1At_false_of_white f h]
  rfl

theorem strat5_nil_left (ms : List Str) : strat5 [] ms = none := by
  simp [strat5]

theorem extract_report_eq_nil_iff (r : Str) (ms : List Str) :
    _extract_report r ms = [] ↔ (r = [] ∧ ∀ m ∈ ms, allWhite m = true) := by
  constructor
  · intro h
    unfold _extract_report at h
    cases hc : extractCascade r ms with
    | some x =>
      rw [hc] at h
      exact absurd h (extractCascade_some_ne_nil r ms x hc)
    | none =>
      rw [hc] at h
      unfold strat7 at h
      by_cases ht : (trim (mkFullText r ms)).isEmpty = true
      · rw [if_pos ht] at h
        subst h
        refine ⟨rfl, ?_⟩
        have htr : trim (mkFullText [] ms) = [] := List.isEmpty_iff.mp ht
        have hw := (trim_eq_nil_iff _).mp htr
        rw [mkFullText_nil_left, joinSep_blank_allWhite] at hw
        exact List.all_eq_true.mp hw
      · rw [if_neg ht] at h
        exact absurd (List.isEmpty_iff.mpr h) ht
  · rintro ⟨hr, hms⟩
    subst hr
    have hfull : allWhite (mkFullText [] ms) = true := by
      rw [mkFullText_nil_left, joinSep_blank_allWhite]
      exact List.all_eq_true.mpr hms
    have hc : extractCascade [] ms = none := by
      unfold extractCascade
      rw [strat1_nil, strat2_none_of_white ms 1000 hms, strat3_none_of_white ms 1000 hms,
          strat4_none_of_white _ hfull, strat5_nil_left ms,
          strat2_none_of_white ms 500 hms, strat3_none_of_white ms 500 hms]
      rfl
    unfold _extract_report
    rw [hc]
    unfold strat7
    rw [if_pos (List.isEmpty_iff.mpr ((trim_eq_nil_iff _).mpr hfull))]

/-- Claim C9: `_extract_report` applied to an empty terminal result string
and an empty message list returns the empty string. -/
theorem extract_report_empty_inputs : _extract_report [] [] = [] := by decide

/-- Claim C10: `_extract_report result messages` returns the empty string if
and only if the terminal result is empty and every message text is empty or
whitespace-only; hence a non-empty (even whitespace-only) terminal result
gives a non-empty extraction, while a whitespace-only message with an empty
terminal result still gives the empty string. -/
theorem extract_report_empty_iff_blank_inputs (r : Str) (ms : List Str) :
    _extract_report r ms = [] ↔ (r = [] ∧ ∀ m ∈ ms, allWhite m = true) :=
  extract_report_eq_nil_iff r ms

/-- Claim C1 counterexample: the message list holds the non-empty one-space
string and the terminal result is empty, yet the extraction is empty, so a
non-empty input does not guarantee a non-empty extraction. -/
theorem extract_report_space_message_counterexample :
    ([' '] : Str) ≠ [] ∧ _extract_report [] [[' ']] = [] := by
  exact ⟨by decide, by decide⟩

/-- Claim C1 (amended): the extraction is non-empty exactly when the terminal
result is non-empty or some message text contains a non-whitespace character;
with an empty terminal result, whitespace-only messages (even non-empty ones)
still produce the empty string. -/
theorem extract_report_nonempty_iff (r : Str) (ms : List Str) :
    _extract_report r ms ≠ [] ↔ (r ≠ [] ∨ ∃ m ∈ ms, allWhite m = false) := by
  rw [ne_eq, extract_report_eq_nil_iff, not_and_or]
  simp [Bool.not_eq_true]

theorem is_report_text_length (s : Str) (n : Nat) (h : _is_report_text s n = true) :
    n < s.length := by
  unfold _is_report_text at h
  obtain ⟨_, h3⟩ := Bool.and_eq_true_iff.mp h
  exact of_decide_eq_true h3

/-- Claim C3: when the terminal result itself satisfies the report test at
threshold 1000, `_extract_report` returns it trimmed whatever the message
list is — strategy 1 short-circuits all later strategies. -/
theorem extract_report_strategy1_short_circuit (r : Str) (ms : List Str)
    (h : _is_report_text r 1000 = true) :
    _extract_report r ms = trim r := by
  have hne : r.isEmpty = false := by
    have hlen := is_report_text_length r 1000 h
    cases r with
    | nil => simp at hlen
    | cons a t => rfl
  have h1 : strat1 r = some (trim r) := by
    unfold strat1
    rw [hne, h]
    rfl
  unfold _extract_report extractCascade
  rw [h1]
  rfl

set_option maxRecDepth 40000 in
/-- Witness for claim C3: a concrete report-shaped terminal result is
returned trimmed even with a distracting message present. -/
theorem extract_report_strategy1_short_circuit_witness :
    _extract_report sampleReport ["ignored message".data] = trim sampleReport :=
  extract_report_strategy1_short_circuit sampleReport ["ignored message".data] (by decide)

/-- Claim C4: when neither the terminal result nor any single message passes
the report test at threshold 1000, the last-2-message window fails it, and
the last-3-message window passes it, `_extract_report` returns exactly the
blank-line join of the last three messages, trimmed — the first satisfying
window size wins, scanning from size 2 upward. -/
theorem extract_report_window3_first_win (r : Str) (ms : List Str)
    (h1 : _is_report_text r 1000 = false)
    (h2 : ∀ m ∈ ms, _is_report_text m 1000 = false)
    (h3 : _is_report_text (windowJoin ms 2) 1000 = false)
    (h4 : _is_report_text (windowJoin ms 3) 1000 = true) :
    _extract_report r ms = trim (windowJoin ms 3) := by
  have hs1 : strat1 r = none := by simp [strat1, h1]
  have hs2 : strat2 ms 1000 = none := by
    apply findReport_eq_none
    intro m hm
    exact h2 m (List.mem_reverse.mp hm)
  have hlen : 3 ≤ ms.length := by
    by_contra hlt
    have e2 : ms.length - 2 = 0 := by omega
    have e3 : ms.length - 3 = 0 := by omega
    have hsame : windowJoin ms 2 = windowJoin ms 3 := by
      unfold windowJoin lastN
      rw [e2, e3]
    rw [hsame, h4] at h3
    exact absurd h3 (by simp)
  have hs3 : strat3 ms 1000 = some (trim (windowJoin ms 3)) := by
    unfold strat3
    obtain ⟨k, hk⟩ : ∃ k, min 8 (ms.length + 1) - 2 = k + 2 :=
      ⟨min 8 (ms.length + 1) - 4, by omega⟩
    rw [hk, List.range'_succ, List.range'_succ]
    norm_num
    simp [strat3go, h3, h4]
  unfold _extract_report extractCascade
  rw [hs1, hs2, hs3]
  rfl

set_option maxRecDepth 40000 in
/-- Witness for claim C4 at a concrete three-message stream whose heading
sits in the third-to-last message. -/
theorem extract_report_window3_first_win_witness :
    _extract_report [] [fragHeading, fragPartOne, fragPartTwo] =
      trim (windowJoin [fragHeading, fragPartOne, fragPartTwo] 3) :=
  extract_report_window3_first_win [] [fragHeading, fragPartOne, fragPartTwo]
    (by decide) (by decide) (by decide) (by decide)

/-- Claim C6: the effective turn count equals the requested count clamped to
the interval from 10 to 100; in particular a request of 5 yields 10, a
request of 500 yields 100, and a request of 42 yields 42. -/
theorem clamp_max_turns_spec :
    (∀ t : Int, clamp_max_turns t = if t < 10 then 10 else if 100 < t then 100 else t) ∧
    clamp_max_turns 5 = 10 ∧ clamp_max_turns 500 = 100 ∧ clamp_max_turns 42 = 42 := by
  refine ⟨?_, by decide, by decide, by decide⟩
  intro t
  unfold clamp_max_turns
  rw [max_def, min_def]
  split_ifs <;> omega

/-- Claim C5: the cancel endpoint cancels the task and reports `cancelled`
exactly when the id is registered with a task that is not done; an unknown
id, a task already done, and a repeated cancel for the same id all report
`not_found` (the endpoint is a total function, never an error), and after
any call a second call for the same id reports `not_found`. -/
theorem cancel_research_spec (reg : SessionRegistry) (sid : Str) :
    (∀ t : TaskHandle, reg sid = some t → t.done = false →
        cancel_research reg sid = ⟨removeSession reg sid, true, .cancelled⟩) ∧
    (∀ t : TaskHandle, reg sid = some t → t.done = true →
        cancel_research reg sid = ⟨removeSession reg sid, false, .not_found⟩) ∧
    (reg sid = none → cancel_research reg sid = ⟨reg, false, .not_found⟩) ∧
    (cancel_research (cancel_research reg sid).registry sid).status = .not_found := by
  refine ⟨?_, ?_, ?_, ?_⟩
  · intro t ht hd
    unfold cancel_research
    rw [ht]
    simp [hd]
  · intro t ht hd
    unfold cancel_research
    rw [ht]
    simp [hd]
  · intro h
    unfold cancel_research
    rw [h]
  · rcases hr : reg sid with _ | t
    · have h1 : cancel_research reg sid = ⟨reg, false, CancelStatus.not_found⟩ := by
        unfold cancel_research
        rw [hr]
      rw [h1]
      show (cancel_research reg sid).status = CancelStatus.not_found
      rw [h1]
    · have h1 : (cancel_research reg sid).registry = removeSession reg sid := by
        unfold cancel_research
        rw [hr]
        cases hd : t.done <;> simp [hd]
      rw [h1]
      unfold cancel_research
      have h2 : removeSession reg sid sid = none := by simp [removeSession]
      rw [h2]

/-- Witness for claim C5 on a concrete registry holding one active session:
the first cancel call reports `cancelled`, the second reports `not_found`. -/
theorem cancel_research_spec_witness :
    (cancel_research sampleRegistry "abc12345".data).status = CancelStatus.cancelled ∧
    (cancel_research (cancel_research sampleRegistry "abc12345".data).registry
        "abc12345".data).status = CancelStatus.not_found := by
  have h := cancel_research_spec sampleRegistry "abc12345".data
  constructor
  · have h1 := h.1 ⟨false⟩ (by rfl) rfl
    rw [h1]
  · exact h.2.2.2

theorem getLastD_cons (l : List Str) : ∀ (a d : Str),
    ((a :: l).getLast?).getD d = (l.getLast?).getD a := by
  induction l with
  | nil => intro a d; rfl
  | cons b t ih =>
    intro a d
    rw [List.getLast?_cons_cons, ih b d, ih b a]

theorem truthyResults_cons_assistant (blocks : List ContentBlock) (rest : List AgentMessage) :
    truthyResults (.assistant blocks :: rest) = truthyResults rest := by
  simp [truthyResults, List.filterMap_cons]

theorem truthyResults_cons_other (rest : List AgentMessage) :
    truthyResults (.otherMsg :: rest) = truthyResults rest := by
  simp [truthyResults, List.filterMap_cons]

theorem truthyResults_cons_result (r : Option Str) (rest : List AgentMessage) :
    truthyResults (.resultMsg r :: rest) =
      (match r with
       | some t => if t.isEmpty then truthyResults rest else t :: truthyResults rest
       | none => truthyResults rest) := by
  cases r with
  | none => simp [truthyResults, List.filterMap_cons]
  | some t =>
    by_cases ht : t.isEmpty
    · have ht' : t = [] := List.isEmpty_iff.mp ht
      simp [truthyResults, List.filterMap_cons, ht, ht']
    · have ht' : ¬ t = [] := fun h => ht (List.isEmpty_iff.mpr h)
      simp [truthyResults, List.filterMap_cons, ht, ht']

theorem stepMessage_assistant_result_text (st : RunState) (blocks : List ContentBlock) :
    (stepMessage st (.assistant blocks)).result_text = st.result_text := by
  unfold stepMessage
  by_cases hp : (textParts blocks).isEmpty <;> simp [hp]

theorem runLoop_result_text (msgs : List AgentMessage) : ∀ st : RunState,
    (runLoop st msgs).result_text = ((truthyResults msgs).getLast?).getD st.result_text := by
  induction msgs with
  | nil => intro st; rfl
  | cons m rest ih =>
    intro st
    rw [runLoop, ih]
    cases m with
    | assistant blocks =>
      rw [stepMessage_assistant_result_text, truthyResults_cons_assistant]
    | otherMsg =>
      rw [truthyResults_cons_other]
      rfl
    | resultMsg r =>
      rw [truthyResults_cons_result]
      cases r with
      | none => rfl
      | some t =>
        by_cases ht : t.isEmpty
        · simp [stepMessage, ht]
        · simp only [ht, if_false, Bool.false_eq_true]
          rw [getLastD_cons]
          have : (stepMessage st (.resultMsg (some t))).result_text = t := by
            simp [stepMessage, ht]
          rw [this]

/-- Claim C7 (amended): across the whole message stream the captured result
string is the value of the last result message whose result is present and
non-empty, or the initial empty string when there is none; result messages
carrying an empty or absent value never overwrite the captured string. -/
theorem runner_result_last_truthy (msgs : List AgentMessage) :
    (runLoop initialRunState msgs).result_text =
      ((truthyResults msgs).getLast?).getD [] :=
  runLoop_result_text msgs initialRunState

/-- Claim C7 counterexample: with a non-empty terminal-result value followed
by an empty one, the last terminal-result value in the stream is the empty
string, yet the captured result keeps the earlier value `"abc"` — later
empty values do not overwrite. -/
theorem runner_result_empty_overwrite_counterexample :
    (statedResultValues
        [AgentMessage.resultMsg (some "abc".data),
         AgentMessage.resultMsg (some [])]).getLast? = some [] ∧
    (runLoop initialRunState
        [AgentMessage.resultMsg (some "abc".data),
         AgentMessage.resultMsg (some [])]).result_text = "abc".data := by
  exact ⟨by decide, by decide⟩

theorem drainEvents_nonterminal (steps : List DrainStep) :
    (drainEvents steps).all (fun e => !isTerminalEvent e) = true := by
  induction steps with
  | nil => rfl
  | cons s rest ih =>
    cases s <;> simp_all [drainEvents, isTerminalEvent]

theorem residualEvents_nonterminal (residual : List (Str × Str)) :
    (residualEvents residual).all (fun e => !isTerminalEvent e) = true := by
  rw [residualEvents, List.all_eq_true]
  intro e he
  obtain ⟨r, _, rfl⟩ := List.mem_map.mp he
  rfl

theorem initialEvents_nonterminal (topic prompt sid : Str) (n : Nat) :
    (initialEvents topic prompt sid n).all (fun e => !isTerminalEvent e) = true := by
  unfold initialEvents
  by_cases hp : prompt.isEmpty <;> simp [hp, isTerminalEvent]

theorem tailEvents_shape (outcome : AgentOutcome) (render : Str → RenderResult) :
    ∃ pre t, tailEvents outcome render = pre ++ [t] ∧ isTerminalEvent t = true ∧
      pre.all (fun e => !isTerminalEvent e) = true := by
  cases outcome with
  | wasCancelled => exact ⟨[], .cancelled stoppedMessage, rfl, rfl, rfl⟩
  | raisedCancelled => exact ⟨[], .cancelled stoppedMessage, rfl, rfl, rfl⟩
  | raised m => exact ⟨[], .error_event m, rfl, rfl, rfl⟩
  | returned report =>
    cases hr : render report with
    | renderError m =>
      refine ⟨[.log "Converting to PDF...".data "phase".data,
               .status "Generating PDF report...".data],
        .error_event ("PDF generation failed: ".data ++ m ++ ". Markdown saved.".data),
        ?_, rfl, rfl⟩
      simp [tailEvents, hr]
    | rendered fn pages =>
      refine ⟨[.log "Converting to PDF...".data "phase".data,
               .status "Generating PDF report...".data,
               .log ("Report saved: ".data ++ fn) "done".data],
        .complete fn pages, ?_, rfl, rfl⟩
      simp [tailEvents, hr]

/-- Claim C8: every event sequence produced by the stream generator — for any
drain schedule, residual queue contents, agent outcome (normal completion,
run failure, cancellation before or during the run) and renderer behaviour —
splits into a terminal-free prefix followed by exactly one terminal event
(`complete`, `cancelled` or `error_event`), and no events follow it. -/
theorem event_stream_single_terminal (topic prompt sid : Str) (max_turns : Nat)
    (steps : List DrainStep) (residual : List (Str × Str))
    (outcome : AgentOutcome) (render : Str → RenderResult) :
    ∃ pre t,
      event_stream_events topic prompt sid max_turns steps residual outcome render
          = pre ++ [t] ∧
      isTerminalEvent t = true ∧
      pre.all (fun e => !isTerminalEvent e) = true := by
  obtain ⟨pre, t, he, ht, hpre⟩ := tailEvents_shape outcome render
  refine ⟨initialEvents topic prompt sid max_turns ++ drainEvents steps ++
    residualEvents residual ++ pre, t, ?_, ht, ?_⟩
  · rw [event_stream_events, he]
    simp [List.append_assoc]
  · simp [List.all_append, hpre, drainEvents_nonterminal, residualEvents_nonterminal,
      initialEvents_nonterminal]

/-! Decomposition of the multiline search into a per-line search, used to
characterise the titled-heading regex. -/

theorem splitLines_shape (s : Str) :
    (splitLines s = [s] ∧ '\n' ∉ s) ∨
    (∃ l t, s = l ++ '\n' :: t ∧ '\n' ∉ l ∧ splitLines s = l :: splitLines t) := by
  induction s with
  | nil => exact Or.inl ⟨rfl, by simp⟩
  | cons c rest ih =>
    by_cases hc : c = '\n'
    · subst hc
      right
      refine ⟨[], rest, rfl, by simp, ?_⟩
      simp [splitLines]
    · have hcb : (c == '\n') = false := by simp [hc]
      rcases ih with ⟨hsp, hnl⟩ | ⟨l, t, hseq, hnl, hsp⟩
      · left
        constructor
        · rw [splitLines, if_neg (by simp [hcb]), hsp]
        · intro hmem
          rcases List.mem_cons.mp hmem with h | h
          · exact hc h.symm
          · exact hnl h
      · right
        refine ⟨c :: l, t, by rw [hseq]; rfl, ?_, ?_⟩
        · intro hmem
          rcases List.mem_cons.mp hmem with h | h
          · exact hc h.symm
          · exact hnl h
        · rw [splitLines, if_neg (by simp [hcb]), hsp]

theorem splitLines_no_newline (s : Str) : ∀ l ∈ splitLines s, '\n' ∉ l := by
  induction s with
  | nil =>
    intro l hl
    simp [splitLines] at hl
    simp [hl]
  | cons c rest ih =>
    intro l hl
    by_cases hc : c = '\n'
    · subst hc
      rw [splitLines, if_pos (by simp)] at hl
      rcases List.mem_cons.mp hl with h | h
      · simp [h]
      · exact ih l h
    · rw [splitLines, if_neg (by simp [hc])] at hl
      cases hsp : splitLines rest with
      | nil =>
        rw [hsp] at hl
        rcases List.mem_cons.mp hl with h | h
        · subst h
          intro hmem
          rcases List.mem_cons.mp hmem with h | h
          · exact hc h.symm
          · simp at h
        · simp at h
      | cons l0 ls =>
        rw [hsp] at hl
        rcases List.mem_cons.mp hl with h | h
        · subst h
          intro hmem
          rcases List.mem_cons.mp hmem with h | h
          · exact hc h.symm
          · exact ih l0 (hsp ▸ List.mem_cons_self l0 ls) h
        · exact ih l (hsp ▸ List.mem_cons_of_mem l0 h)

theorem searchCont_no_newline (p : Str → Bool) (s : Str) (hs : '\n' ∉ s) :
    searchCont p s = false := by
  induction s with
  | nil => rfl
  | cons c rest ih =>
    have hc : (c == '\n') = false := by
      simp
      intro h
      exact hs (h ▸ List.mem_cons_self c rest)
    have hrest : '\n' ∉ rest := fun h => hs (List.mem_cons_of_mem c h)
    simp [searchCont, hc, ih hrest]

theorem searchCont_append_newline (p : Str → Bool) (l : Str) (hl : '\n' ∉ l) (t : Str) :
    searchCont p (l ++ '\n' :: t) = (p t || searchCont p t) := by
  induction l with
  | nil => simp [searchCont]
  | cons c l' ih =>
    have hc : (c == '\n') = false := by
      simp
      intro h
      exact hl (h ▸ List.mem_cons_self c l')
    have hl' : '\n' ∉ l' := fun h => hl (List.mem_cons_of_mem c h)
    simp [searchCont, hc, ih hl']

theorem multilineSearch_eq_any_aux (p : Str → Bool)
    (hp : ∀ l t, '\n' ∉ l → p (l ++ '\n' :: t) = p l) :
    ∀ n (s : Str), s.length ≤ n → multilineSearch p s = (splitLines s).any p := by
  intro n
  induction n with
  | zero =>
    intro s hs
    have hnil : s = [] := List.eq_nil_of_length_eq_zero (Nat.le_zero.mp hs)
    subst hnil
    rfl
  | succ n ihn =>
    intro s hs
    rcases splitLines_shape s with ⟨hsp, hnl⟩ | ⟨l, t, hseq, hnl, hsp⟩
    · rw [hsp, multilineSearch, searchCont_no_newline p s hnl]
      simp
    · rw [hsp, multilineSearch, hseq, searchCont_append_newline p l hnl t, hp l t hnl]
      have hlt : t.length ≤ n := by
        have := hs
        rw [hseq] at this
        simp [List.length_append] at this
        omega
      have ht := ihn t hlt
      rw [multilineSearch] at ht
      rw [List.any_cons, ← ht]

theorem multilineSearch_eq_any (p : Str → Bool)
    (hp : ∀ l t, '\n' ∉ l → p (l ++ '\n' :: t) = p l) (s : Str) :
    multilineSearch p s = (splitLines s).any p :=
  multilineSearch_eq_any_aux p hp s.length s (Nat.le_refl _)

theorem ciLeads_append_newline :
    ∀ (kw : Str), (∀ k ∈ kw, ciEq k '\n' = false) →
      ∀ (a t : Str), ciLeads kw (a ++ '\n' :: t) = ciLeads kw a := by
  intro kw
  induction kw with
  | nil => intro _ a t; rfl
  | cons k ks ih =>
    intro hkw a t
    cases a with
    | nil =>
      have hk : ciEq k '\n' = false := hkw k (List.mem_cons_self k ks)
      simp only [List.nil_append, ciLeads]
      rw [hk]
      simp
    | cons c a' =>
      simp only [List.cons_append, ciLeads, List.append_eq]
      rw [ih (fun x hx => hkw x (List.mem_cons_of_mem k hx)) a' t]

theorem keywordAt_append_newline (a t : Str) : keywordAt (a ++ '\n' :: t) = keywordAt a := by
  unfold keywordAt
  rw [ciLeads_append_newline kwMarket (by decide) a t,
      ciLeads_append_newline kwResearch (by decide) a t,
      ciLeads_append_newline kwBrief (by decide) a t,
      ciLeads_append_newline kwReport (by decide) a t,
      ciLeads_append_newline kwAnalysis (by decide) a t,
      ciLeads_append_newline kwOverview (by decide) a t,
      ciLeads_append_newline kwExecutive (by decide) a t]

theorem keywordSearch_append_newline : ∀ (a : Str), '\n' ∉ a →
    ∀ (t : Str), keywordSearch (a ++ '\n' :: t) = keywordSearch a := by
  intro a
  induction a with
  | nil =>
    intro _ t
    have h1 : keywordAt ('\n' :: t) = false := by
      have h := keywordAt_append_newline [] t
      rw [show keywordAt [] = false from by decide] at h
      exact h
    simp [keywordSearch, h1]
  | cons c a' ih =>
    intro hna t
    have hc : (c != '\n') = true := by
      simp
      intro h
      exact hna (h ▸ List.mem_cons_self c a')
    have hna' : '\n' ∉ a' := fun h => hna (List.mem_cons_of_mem c h)
    simp only [List.cons_append, keywordSearch, List.append_eq]
    have hka := keywordAt_append_newline (c :: a') t
    simp only [List.cons_append] at hka
    rw [hka, ih hna' t]

theorem keywordAfterGap_append_newline : ∀ (a : Str), '\n' ∉ a →
    ∀ (t : Str), keywordAfterGap (a ++ '\n' :: t) = keywordAfterGap a := by
  intro a ha t
  cases a with
  | nil => simp [keywordAfterGap]
  | cons c a' =>
    have hna' : '\n' ∉ a' := fun h => ha (List.mem_cons_of_mem c h)
    simp only [List.cons_append, keywordAfterGap]
    rw [keywordSearch_append_newline a' hna' t]

theorem matchTitledRest_append_newline (a : Str) (ha : '\n' ∉ a) (t : Str) :
    matchTitledRest (a ++ '\n' :: t) = matchTitledRest a := by
  cases a with
  | nil =>
    simp only [List.nil_append, matchTitledRest]
    rw [show ('\n' == ' ') = false from by decide]
    simp
  | cons c a' =>
    have hna' : '\n' ∉ a' := fun h => ha (List.mem_cons_of_mem c h)
    simp only [List.cons_append, matchTitledRest]
    rw [keywordAfterGap_append_newline a' hna' t]

theorem matchTitledAt_append_newline (a t : Str) (ha : '\n' ∉ a) :
    matchTitledAt (a ++ '\n' :: t) = matchTitledAt a := by
  cases a with
  | nil =>
    simp only [List.nil_append, matchTitledAt]
    rw [show ('\n' == '#') = false from by decide]
    simp
  | cons c a' =>
    have hna' : '\n' ∉ a' := fun h => ha (List.mem_cons_of_mem c h)
    simp only [List.cons_append, matchTitledAt]
    rw [matchTitledRest_append_newline a' hna' t]

theorem keywordSearch_eq_anyKeywordSub : ∀ (s : Str), '\n' ∉ s →
    keywordSearch s = anyKeywordSub s := by
  intro s
  induction s with
  | nil =>
    intro _
    rw [show anyKeywordSub [] = false from by decide]
    rfl
  | cons c s' ih =>
    intro hs
    have hc : (c != '\n') = true := by
      simp
      intro h
      exact hs (h ▸ List.mem_cons_self c s')
    have hs' : '\n' ∉ s' := fun h => hs (List.mem_cons_of_mem c h)
    simp only [keywordSearch, hc, Bool.true_and]
    rw [ih hs']
    unfold anyKeywordSub keywordAt
    simp only [ciSub]
    simp only [Bool.or_assoc, Bool.or_comm, Bool.or_left_comm]

theorem hash_space_data : "# ".data = ['#', ' '] := rfl

theorem matchTitledAt_line (l : Str) (hl : '\n' ∉ l) :
    matchTitledAt l = (leadsWith "# ".data l && anyKeywordSub (l.drop 3)) := by
  rw [hash_space_data]
  cases l with
  | nil => simp [matchTitledAt, leadsWith]
  | cons c rest =>
    cases rest with
    | nil => simp [matchTitledAt, matchTitledRest, leadsWith]
    | cons d rest2 =>
      cases rest2 with
      | nil =>
        have hdrop : List.drop 3 [c, d] = [] := by simp
        rw [hdrop, show anyKeywordSub [] = false from by decide]
        simp [matchTitledAt, matchTitledRest, keywordAfterGap, leadsWith]
      | cons e rest3 =>
        have he : (e != '\n') = true := by
          simp
          intro h
          exact hl (by simp [h])
        have hr3 : '\n' ∉ rest3 := fun h => hl (by simp [h])
        have hks := keywordSearch_eq_anyKeywordSub rest3 hr3
        have hdrop : List.drop 3 (c :: d :: e :: rest3) = rest3 := by simp
        rw [hdrop]
        simp only [matchTitledAt, matchTitledRest, keywordAfterGap, leadsWith, he, hks]
        simp [Bool.and_assoc]

theorem any_congr_mem (p q : Str → Bool) :
    ∀ (l : List Str), (∀ x ∈ l, p x = q x) → l.any p = l.any q := by
  intro l
  induction l with
  | nil => intro _; rfl
  | cons x xs ih =>
    intro h
    rw [List.any_cons, List.any_cons, h x (List.mem_cons_self x xs),
        ih (fun y hy => h y (List.mem_cons_of_mem x hy))]

/-- Claim C2 (amended): `_has_report_heading` (the same pattern is inlined in
extraction strategy 4) is true iff some line starts with `# ` and one of the
keywords Market, Research, Brief, Report, Analysis, Overview, Executive
occurs, case-insensitively, at least one character after the marker (at line
index 3 or later): the regex `.+` consumes at least one character before the
keyword, so a title that begins with the keyword itself, such as
`# Market Trends`, does not match. -/
theorem has_report_heading_characterization (text : Str) :
    _has_report_heading text = hasTitledHeadingAmended text := by
  unfold _has_report_heading hasTitledHeadingAmended
  rw [multilineSearch_eq_any matchTitledAt
    (fun l t hnl => matchTitledAt_append_newline l t hnl) text]
  exact any_congr_mem _ _ (splitLines text)
    (fun l hl => matchTitledAt_line l (splitLines_no_newline text l hl))

/-- Claim C2 counterexample: the heading `# Market Trends` satisfies the
claimed predicate — its title text contains the keyword Market — yet
`_has_report_heading` rejects it, because no character separates the `# `
marker from the keyword. -/
theorem has_report_heading_market_trends_counterexample :
    hasTitledHeadingSpec "# Market Trends".data = true ∧
    _has_report_heading "# Market Trends".data = false :=
  ⟨by decide, by decide⟩
